import Mathlib

/-!
Verification development for the yamleditor core: the path expression
compiler (pkg/path/parser.go), the tree navigator and condition matcher
(pkg/path/navigator.go, plus FindWithWhere / matchWhere), and the mutation
engine (pkg/engine/engine.go).  Go code is shallowly embedded: pure Go
functions become Lean functions, `error` returns become `Except String`,
and in-place pointer mutation of `*yaml.Node` is modelled by giving every
node a numeric identity (the pointer) and rewriting the tree at matching
identities.  The two regex engines used by the source (dlclark/regexp2 at
parse time, the standard regexp package at match time) are modelled as an
abstract oracle, since their internal automata are out of scope.
-/

namespace YE

/-- Abstract model of the two regex engines the source links against.
`compile2OK p` is `true` when `regexp2.Compile(p, 0)` succeeds (parse-time
validation in parseSelector); `matchString p s` models
`regexp.MatchString(p, s)` with `none` standing for a non-nil error;
`compileGoOK` models `regexp.Compile` success in regexReplace and
`replaceAll p s repl` models `re.ReplaceAllString(s, repl)`. -/
structure RegexOracle where
  compile2OK : String → Bool
  matchString : String → String → Option Bool
  compileGoOK : String → Bool
  replaceAll : String → String → String → String

/-- SegmentType from pkg/path/types.go. -/
inductive SegmentType where
  | fieldT
  | arrayT
deriving DecidableEq, Repr

/-- SelectorType from pkg/path/types.go. -/
inductive SelectorType where
  | wildcard
  | index
  | condition
deriving DecidableEq, Repr

/-- Operator from pkg/path/types.go; OpRegex is referenced by parser.go and
navigator.go. -/
inductive Operator where
  | opEqual
  | opNotEqual
  | opRegex
deriving DecidableEq, Repr

/-- Condition.Value is a Go `interface{}`: an int for index selectors,
a string for condition selectors. -/
inductive CondValue where
  | intV (n : Int)
  | strV (s : String)
deriving DecidableEq, Repr

/-- `fmt.Sprint` of a Condition.Value. -/
def CondValue.sprint : CondValue → String
  | .intV n => toString n
  | .strV s => s

/-- Condition from pkg/path/types.go. -/
structure Condition where
  field : String
  op : Operator
  value : CondValue
deriving DecidableEq, Repr

/-- Selector from pkg/path/types.go (Condition is a possibly-nil pointer). -/
structure Selector where
  type : SelectorType
  condition : Option Condition
deriving DecidableEq, Repr

/-- Segment from pkg/path/types.go (Selector is a possibly-nil pointer). -/
structure Segment where
  type : SegmentType
  field : String
  selector : Option Selector
deriving DecidableEq, Repr

/-- Path from pkg/path/types.go. -/
structure Path where
  segments : List Segment
deriving DecidableEq, Repr

/-! ## Path compiler (pkg/path/parser.go) -/

/-- Loop of splitPath: iterates runes carrying the builder `current`, the
`inBracket` flag and the accumulated `parts`. -/
def splitPathAux : List Char → List Char → Bool → List String → List String
  | [], current, _, parts =>
    if current.isEmpty then parts else parts ++ [String.mk current]
  | c :: rest, current, inBracket, parts =>
    if c = '[' then splitPathAux rest (current ++ [c]) true parts
    else if c = ']' then splitPathAux rest (current ++ [c]) false parts
    else if c = '.' then
      if inBracket then splitPathAux rest (current ++ [c]) inBracket parts
      else if current.isEmpty then splitPathAux rest current inBracket parts
      else splitPathAux rest [] inBracket (parts ++ [String.mk current])
    else splitPathAux rest (current ++ [c]) inBracket parts

/-- splitPath from parser.go: dot-splitting that ignores dots inside
`[...]` (it does not know about `@...@`). -/
def splitPath (pathStr : String) : List String :=
  splitPathAux pathStr.data [] false []

/-- Loop of findClosingBracket: scans from byte `start`, toggling `inRegex`
at each `@` and returning the first `]` outside a regex literal. -/
def findClosingBracketAux : List Char → Nat → Bool → Option Nat
  | [], _, _ => none
  | c :: rest, i, inRegex =>
    let inRegex' := if c = '@' then !inRegex else inRegex
    if c = ']' ∧ inRegex' = false then some i
    else findClosingBracketAux rest (i + 1) inRegex'

/-- findClosingBracket from parser.go. -/
def findClosingBracket (s : String) (start : Nat) : Option Nat :=
  findClosingBracketAux (s.data.drop start) start false

/-- `strings.Index(part, "[")`, as a rune index. -/
def indexOfLBracket : List Char → Option Nat
  | [] => none
  | c :: rest =>
    if c = '[' then some 0 else (indexOfLBracket rest).map (· + 1)

/-- Digit run to a number (used by the Atoi model). -/
def digitsToNat (l : List Char) : Nat :=
  l.foldl (fun acc c => acc * 10 + (c.toNat - ('0').toNat)) 0

/-- Model of `strconv.Atoi`: optional sign followed by a nonempty digit
run (the int64-overflow failure mode is not modelled; all inputs in this
development are tiny). -/
def atoi? (s : String) : Option Int :=
  match s.data with
  | [] => none
  | c :: rest =>
    if c = '+' then
      if rest ≠ [] ∧ rest.all Char.isDigit then some (digitsToNat rest) else none
    else if c = '-' then
      if rest ≠ [] ∧ rest.all Char.isDigit then some (-(digitsToNat rest : Int)) else none
    else if (c :: rest).all Char.isDigit then some (digitsToNat (c :: rest)) else none

/-- `strings.SplitN(s, "=", 2)` when `=` occurs: the part before the first
`=` and the part after it. -/
def splitFirstEq : List Char → List Char × List Char
  | [] => ([], [])
  | c :: rest =>
    if c = '=' then ([], rest)
    else
      let p := splitFirstEq rest
      (c :: p.1, p.2)

/-- `strings.Trim(s, "@")`: strips every leading and trailing `@`. -/
def trimAts (s : String) : String :=
  String.mk (((s.data.dropWhile (· = '@')).reverse.dropWhile (· = '@')).reverse)

/-- `strings.HasPrefix(s, "@")`. -/
def startsWithAt (s : String) : Bool :=
  match s.data with
  | '@' :: _ => true
  | _ => false

/-- `strings.HasSuffix(s, "@")`. -/
def endsWithAt (s : String) : Bool :=
  s.data.getLast? = some '@'

/-- parseSelector from parser.go: `*`/`?` wildcard, bare integer index,
`field=value` equality, `field=@pattern@` regex (validated at parse time
via `regexp2.Compile`, modelled by `o.compile2OK`). -/
def parseSelector (o : RegexOracle) (selectorStr : String) : Except String Selector :=
  if selectorStr = "*" then .ok { type := .wildcard, condition := none }
  else if selectorStr = "?" then .ok { type := .wildcard, condition := none }
  else match atoi? selectorStr with
  | some idx =>
    .ok { type := .index,
          condition := some { field := "_index", op := .opEqual, value := .intV idx } }
  | none =>
    if selectorStr.data.contains '=' then
      let parts := splitFirstEq selectorStr.data
      let field := String.mk parts.1
      let value := String.mk parts.2
      if field = "" then .error "field name cannot be empty"
      else if startsWithAt value ∧ endsWithAt value then
        let pattern := trimAts value
        if pattern = "" then .error "regex pattern cannot be empty"
        else if o.compile2OK pattern then
          .ok { type := .condition,
                condition := some { field := field, op := .opRegex, value := .strV pattern } }
        else .error "invalid regex pattern"
      else
        .ok { type := .condition,
              condition := some { field := field, op := .opEqual, value := .strV value } }
    else .error s!"unknown selector syntax: {selectorStr}"

/-- parseArraySegment from parser.go: field before the first `[`, selector
text up to the matching `]` found by findClosingBracket. -/
def parseArraySegment (o : RegexOracle) (part : String) : Except String Segment :=
  match indexOfLBracket part.data with
  | none => .error "no opening bracket"
  | some bracketStart =>
    match findClosingBracket part (bracketStart + 1) with
    | none => .error "no closing bracket"
    | some bracketEnd =>
      let field := String.mk (part.data.take bracketStart)
      let selectorStr :=
        String.mk ((part.data.drop (bracketStart + 1)).take (bracketEnd - (bracketStart + 1)))
      match parseSelector o selectorStr with
      | .error e => .error e
      | .ok sel => .ok { type := .arrayT, field := field, selector := some sel }

/-- parseSegment from parser.go. -/
def parseSegment (o : RegexOracle) (part : String) : Except String Segment :=
  if part.data.contains '[' then parseArraySegment o part
  else .ok { type := .fieldT, field := part, selector := none }

/-- The segment loop of Parse, wrapping segment errors with the offending
part text. -/
def parseParts (o : RegexOracle) : List String → Except String (List Segment)
  | [] => .ok []
  | p :: rest =>
    match parseSegment o p with
    | .error e => .error s!"invalid segment '{p}': {e}"
    | .ok seg =>
      match parseParts o rest with
      | .error e => .error e
      | .ok segs => .ok (seg :: segs)

/-- Parse from parser.go. -/
def Parse (o : RegexOracle) (pathStr : String) : Except String Path :=
  if pathStr = "" then .error "empty path"
  else
    match parseParts o (splitPath pathStr) with
    | .error e => .error e
    | .ok segs => .ok { segments := segs }

/-- An oracle whose validator accepts every pattern and whose matcher
always reports a match; used to instantiate oracle-generic theorems. -/
def oracleAll : RegexOracle :=
  { compile2OK := fun _ => true
    matchString := fun _ _ => some true
    compileGoOK := fun _ => true
    replaceAll := fun _ s _ => s }

/-! ## Tree model (`gopkg.in/yaml.v3` Node, as consumed by the core)

A `*yaml.Node` pointer is modelled by a numeric identity carried by each
node; Go pointer comparison (`elem == target` in deleteNodeRecursive) is
identity comparison, and in-place mutation through a pointer is rewriting
the tree at that identity.  A MappingNode keeps its Go representation: a
flat Content list `[key1, value1, key2, value2, ...]`.  An AliasNode holds
its target inline (finite trees only; the source does not guard against
alias cycles either). -/
inductive Node where
  | document (id : Nat) (content : List Node)
  | mapping (id : Nat) (content : List Node)
  | sequence (id : Nat) (content : List Node)
  | scalar (id : Nat) (tag : String) (value : String)
  | aliasN (id : Nat) (target : Node)

/-- The node's identity (the Go pointer). -/
def Node.id : Node → Nat
  | .document i _ => i
  | .mapping i _ => i
  | .sequence i _ => i
  | .scalar i _ _ => i
  | .aliasN i _ => i

/-- The node's `Value` field: the scalar text, `""` for non-scalars. -/
def Node.val : Node → String
  | .scalar _ _ v => v
  | _ => ""

/-- The node's `Content` field (empty for scalars and aliases). -/
def Node.content : Node → List Node
  | .document _ cs => cs
  | .mapping _ cs => cs
  | .sequence _ cs => cs
  | _ => []

/-- The numeric value of the node's `yaml.Kind` (what `%v` prints). -/
def Node.kindNum : Node → Nat
  | .document _ _ => 1
  | .sequence _ _ => 2
  | .mapping _ _ => 4
  | .scalar _ _ _ => 8
  | .aliasN _ _ => 16

/-! ## Navigator / condition matcher (pkg/path/navigator.go) -/

/-- matchCondition's member scan over a Mapping's flat Content list.
Exactly as in navigator.go: on the first key equal to the condition field,
OpEqual compares the stringified value and OpRegex runs `regexp.MatchString`
returning `err == nil && matched` (a match-time regex error is swallowed
into `false`).  Any other operator falls through the Go `switch` without
returning, so the scan continues (navigator.go has no OpNotEqual case).
A regex condition whose value is not a string would panic in Go
(`cond.Value.(string)`); the parser never builds one, and it is modelled
as no-match. -/
def matchCondLoop (o : RegexOracle) (cond : Condition) : List Node → Bool
  | keyNode :: valueNode :: rest =>
    if keyNode.val = cond.field then
      match cond.op with
      | .opEqual => valueNode.val = cond.value.sprint
      | .opRegex =>
        match cond.value with
        | .strV pattern =>
          match o.matchString pattern valueNode.val with
          | some matched => matched
          | none => false
        | .intV _ => false
      | .opNotEqual => matchCondLoop o cond rest
    else matchCondLoop o cond rest
  | _ => false

/-- matchCondition from navigator.go: the element must be a Mapping. -/
def matchCondition (o : RegexOracle) (node : Node) (cond : Condition) : Bool :=
  match node with
  | .mapping _ cs => matchCondLoop o cond cs
  | _ => false

/-- The arrayNode-finding loop of findArray (navigator.go:75-83): first
key match wins. -/
def lookupArrayNode (field : String) : List Node → Option Node
  | keyNode :: valueNode :: rest =>
    if keyNode.val = field then some valueNode else lookupArrayNode field rest
  | _ => none

mutual

/-- findRecursive from navigator.go.  The segment-exhausted check comes
first; Document nodes unwrap to their first child (empty document is an
error) and Alias nodes unwrap to their target before segment dispatch.
A MappingNode with odd Content length would panic in Go at `Content[i+1]`;
the loops below treat the dangling key as end of list (no claim touches
such malformed trees). -/
def findRecursive (o : RegexOracle) (node : Node) (segs : List Segment) :
    Except String (List Node) :=
  match segs with
  | [] => .ok [node]
  | seg :: rest =>
    match node with
    | .document _ cs =>
      match cs with
      | [] => .error "empty document"
      | c :: _ => findRecursive o c (seg :: rest)
    | .aliasN _ target => findRecursive o target (seg :: rest)
    | .mapping _ cs =>
      match seg.type with
      | .fieldT => findFieldLoop o seg rest cs
      | .arrayT => findArrayLoop o seg rest cs
    | .sequence i cs =>
      match seg.type with
      | .fieldT => .error s!"expected mapping node, got {Node.kindNum (.sequence i cs)}"
      | .arrayT => .error "expected mapping node for array field"
    | .scalar i t v =>
      match seg.type with
      | .fieldT => .error s!"expected mapping node, got {Node.kindNum (.scalar i t v)}"
      | .arrayT => .error "expected mapping node for array field"

/-- findField's member scan (navigator.go:55-64): recurse into the value
of the first matching key. -/
def findFieldLoop (o : RegexOracle) (seg : Segment) (rest : List Segment) :
    List Node → Except String (List Node)
  | keyNode :: valueNode :: tail =>
    if keyNode.val = seg.field then findRecursive o valueNode rest
    else findFieldLoop o seg rest tail
  | _ => .error s!"field '{seg.field}' not found"

/-- findArray's arrayNode scan fused with the post-scan checks: first key
match wins, then the selector dispatch runs on that value. -/
def findArrayLoop (o : RegexOracle) (seg : Segment) (rest : List Segment) :
    List Node → Except String (List Node)
  | keyNode :: valueNode :: tail =>
    if keyNode.val = seg.field then arrayDispatch o seg rest valueNode
    else findArrayLoop o seg rest tail
  | _ => .error s!"array field '{seg.field}' not found"

/-- The body of findArray after the array field is found: the value must
be a SequenceNode, then the selector picks elements.  A nil Selector or a
non-int index value would panic in Go; both are modelled as errors and are
unreachable from parser output. -/
def arrayDispatch (o : RegexOracle) (seg : Segment) (rest : List Segment) :
    Node → Except String (List Node)
  | .sequence _ elems =>
    match seg.selector with
    | none => .error "unknown selector type"
    | some sel =>
      match sel.type with
      | .wildcard => .ok (wildcardLoop o rest elems)
      | .index =>
        match sel.condition with
        | some cond =>
          match cond.value with
          | .intV idx =>
            if idx < 0 then .error s!"index {idx} out of range"
            else indexLoop o idx rest idx.toNat elems
          | .strV _ => .error "index selector without integer value"
        | none => .error "index selector without integer value"
      | .condition =>
        match sel.condition with
        | some cond =>
          let results := condLoop o cond rest elems
          if results.isEmpty then .error "no elements match condition"
          else .ok results
        | none => .error "condition selector without condition"
  | _ => .error s!"field '{seg.field}' is not an array"

/-- The Wildcard element loop (navigator.go:95-105): elements whose
remainder fails to resolve are silently skipped. -/
def wildcardLoop (o : RegexOracle) (rest : List Segment) : List Node → List Node
  | [] => []
  | elem :: tail =>
    (match findRecursive o elem rest with
     | .ok matched => matched
     | .error _ => []) ++ wildcardLoop o rest tail

/-- The Condition element loop (navigator.go:117-126): matching elements
whose remainder resolves contribute their matches, in element order. -/
def condLoop (o : RegexOracle) (cond : Condition) (rest : List Segment) :
    List Node → List Node
  | [] => []
  | elem :: tail =>
    (if matchCondition o elem cond then
      match findRecursive o elem rest with
      | .ok matched => matched
      | .error _ => []
     else []) ++ condLoop o cond rest tail

/-- The in-range Index case (navigator.go:107-113): recurse into exactly
the element at the selected position; past-the-end is out of range
(`orig` keeps the original index for the error text). -/
def indexLoop (o : RegexOracle) (orig : Int) (rest : List Segment) :
    Nat → List Node → Except String (List Node)
  | _, [] => .error s!"index {orig} out of range"
  | 0, elem :: _ => findRecursive o elem rest
  | n + 1, _ :: tail => indexLoop o orig rest n tail

end

/-- Find from navigator.go. -/
def Find (o : RegexOracle) (root : Node) (path : Path) : Except String (List Node) :=
  findRecursive o root path.segments

/-! ## Where-clause post-filter (FindWithWhere / matchWhere) -/

/-- WhereCondition: the delete-only post-filter (regex on the conventional
"name" member, exclusion list, inclusion list).  Go nil slices are `[]`. -/
structure WhereCondition where
  nameRegex : String
  nameNotIn : List String
  nameIn : List String

/-- The name-member scan of matchWhere: the value of the first key equal
to "name", `""` when absent (the Go loop leaves nameValue zero-valued). -/
def findNameValue : List Node → String
  | keyNode :: valueNode :: rest =>
    if keyNode.val = "name" then valueNode.val else findNameValue rest
  | _ => ""

/-- matchWhere: the candidate must be a Mapping with a nonempty "name"
member; then the regex check (a `regexp.MatchString` error rejects), the
exclusion list and the inclusion list are applied conjunctively, each only
when present. -/
def matchWhere (o : RegexOracle) (node : Node) (w : WhereCondition) : Bool :=
  match node with
  | .mapping _ cs =>
    let nameValue := findNameValue cs
    if nameValue = "" then false
    else if (w.nameRegex != "") &&
        (match o.matchString w.nameRegex nameValue with
         | some matched => !matched
         | none => true) then false
    else if (!w.nameNotIn.isEmpty) && w.nameNotIn.contains nameValue then false
    else if (!w.nameIn.isEmpty) && !(w.nameIn.contains nameValue) then false
    else true
  | _ => false

/-- FindWithWhere: path-based candidates from Find, then (when a where
clause is present) keep only the candidates matchWhere accepts. -/
def FindWithWhere (o : RegexOracle) (root : Node) (path : Path)
    (w : Option WhereCondition) : Except String (List Node) :=
  match findRecursive o root path.segments with
  | .error e => .error e
  | .ok candidates =>
    match w with
    | none => .ok candidates
    | some wc => .ok (candidates.filter (fun n => matchWhere o n wc))

/-! ## Mutation engine (pkg/engine) -/

/-- ActionType from pkg/engine/types.go. -/
inductive ActionType where
  | replace
  | set
  | delete
  | regexReplace
deriving DecidableEq, Repr

mutual

/-- The rule's dynamically-typed `value` payload (a Go `interface{}`
decoded from the rules file): null, bool, int, float, string, ordered
mapping or sequence.  A float keeps its textual representation. -/
inductive RuleValue where
  | null
  | boolV (b : Bool)
  | intV (n : Int)
  | floatV (text : String)
  | strV (s : String)
  | mapV (pairs : List RVPair)
  | seqV (elems : List RuleValue)

/-- One key/value entry of a mapping payload. -/
inductive RVPair where
  | mk (key : String) (value : RuleValue)

end

/-- Rule from pkg/engine/types.go (current shape: action, path, value,
pattern, where; continue_on_not_found is consumed by the orchestration
layer, not the engine). -/
structure Rule where
  action : ActionType
  path : String
  value : RuleValue
  pattern : String
  whereC : Option WhereCondition
  continueOnNotFound : Bool

mutual

/-- `yaml.Node.Encode(rule.Value)`: string to a `!!str` scalar, int to a
`!!int` scalar in decimal, bool to `!!bool`, nil to `!!null`, composites
recursively to Mapping/Sequence nodes with `!!str` keys.  Freshly built
nodes carry identity 0 (no pre-existing pointer aliases them). -/
def encodeValue : RuleValue → Node
  | .null => .scalar 0 "!!null" "null"
  | .boolV b => .scalar 0 "!!bool" (if b then "true" else "false")
  | .intV n => .scalar 0 "!!int" (toString n)
  | .floatV text => .scalar 0 "!!float" text
  | .strV s => .scalar 0 "!!str" s
  | .mapV pairs => .mapping 0 (encodePairs pairs)
  | .seqV elems => .sequence 0 (encodeElems elems)

/-- Mapping payload entries become `[key scalar, encoded value, ...]`. -/
def encodePairs : List RVPair → List Node
  | [] => []
  | .mk key value :: rest => .scalar 0 "!!str" key :: encodeValue value :: encodePairs rest

/-- Sequence payload elements, in order. -/
def encodeElems : List RuleValue → List Node
  | [] => []
  | v :: rest => encodeValue v :: encodeElems rest

end

/-- Re-brand a node with a given identity: models `*node = *newNode`,
which overwrites the pointed-to struct while the pointer (identity) itself
is unchanged. -/
def withId (i : Nat) : Node → Node
  | .document _ cs => .document i cs
  | .mapping _ cs => .mapping i cs
  | .sequence _ cs => .sequence i cs
  | .scalar _ t v => .scalar i t v
  | .aliasN _ t => .aliasN i t

mutual

/-- The replace loop `for _, node := range nodes { *node = *newNode }` as
a tree rewrite: every node whose identity is in `targets` gets the new
contents (keeping its identity, i.e. its place under its parent); all
other nodes keep their contents, recursing into children. -/
def replaceTargets (targets : List Nat) (new : Node) (n : Node) : Node :=
  if targets.contains n.id then withId n.id new
  else
    match n with
    | .document i cs => .document i (replaceTargetsList targets new cs)
    | .mapping i cs => .mapping i (replaceTargetsList targets new cs)
    | .sequence i cs => .sequence i (replaceTargetsList targets new cs)
    | .scalar i t v => .scalar i t v
    | .aliasN i t => .aliasN i (replaceTargets targets new t)

/-- Children are rewritten elementwise, preserving positions. -/
def replaceTargetsList (targets : List Nat) (new : Node) : List Node → List Node
  | [] => []
  | c :: rest => replaceTargets targets new c :: replaceTargetsList targets new rest

end

mutual

/-- The set loop from engine.go: at each resolved node, a string/int/bool
payload overwrites Value/Kind/Tag in place (yaml.v3 ignores Content when
serializing a ScalarNode, so the stale Content the Go code leaves behind
is dropped here); any other payload falls back to the replace-style
`*node = *newNode`. -/
def setTargets (targets : List Nat) (v : RuleValue) (n : Node) : Node :=
  if targets.contains n.id then
    match v with
    | .strV s => .scalar n.id "!!str" s
    | .intV k => .scalar n.id "!!int" (toString k)
    | .boolV b => .scalar n.id "!!bool" (if b then "true" else "false")
    | other => withId n.id (encodeValue other)
  else
    match n with
    | .document i cs => .document i (setTargetsList targets v cs)
    | .mapping i cs => .mapping i (setTargetsList targets v cs)
    | .sequence i cs => .sequence i (setTargetsList targets v cs)
    | .scalar i t val => .scalar i t val
    | .aliasN i t => .aliasN i (setTargets targets v t)

/-- Children of an unresolved node, rewritten elementwise. -/
def setTargetsList (targets : List Nat) (v : RuleValue) : List Node → List Node
  | [] => []
  | c :: rest => setTargets targets v c :: setTargetsList targets v rest

end

mutual

/-- deleteNodeRecursive from engine.go, for one target identity: a
Document recurses into its children (its own child list is never pruned);
a Mapping drops the key/value pair whose value is the target (identity
comparison, pair not recursed) and recurses into retained values (keys are
neither compared nor recursed); a Sequence drops the target element and
recurses into retained elements; scalars and aliases are left alone. -/
def deleteNodeRec (tid : Nat) (n : Node) : Node :=
  match n with
  | .document i cs => .document i (deleteDocLoop tid cs)
  | .mapping i cs => .mapping i (deleteMapLoop tid cs)
  | .sequence i cs => .sequence i (deleteSeqLoop tid cs)
  | .scalar i t v => .scalar i t v
  | .aliasN i t => .aliasN i t

/-- Document children: recursed, never removed. -/
def deleteDocLoop (tid : Nat) : List Node → List Node
  | [] => []
  | c :: rest => deleteNodeRec tid c :: deleteDocLoop tid rest

/-- Mapping pair loop (a dangling odd key would panic in Go; kept as-is
here, unreachable from well-formed trees). -/
def deleteMapLoop (tid : Nat) : List Node → List Node
  | keyNode :: valueNode :: rest =>
    if valueNode.id = tid then deleteMapLoop tid rest
    else keyNode :: deleteNodeRec tid valueNode :: deleteMapLoop tid rest
  | l => l

/-- Sequence element loop. -/
def deleteSeqLoop (tid : Nat) : List Node → List Node
  | [] => []
  | elem :: rest =>
    if elem.id = tid then deleteSeqLoop tid rest
    else deleteNodeRec tid elem :: deleteSeqLoop tid rest

end

mutual

/-- The regex_replace loop: only Scalar resolved nodes are rewritten by
`f` (the compiled pattern's ReplaceAllString); non-scalar resolved nodes
are skipped, everything else is traversed unchanged. -/
def regexTargets (targets : List Nat) (f : String → String) : Node → Node
  | .scalar i t v => if targets.contains i then .scalar i t (f v) else .scalar i t v
  | .document i cs => .document i (regexTargetsList targets f cs)
  | .mapping i cs => .mapping i (regexTargetsList targets f cs)
  | .sequence i cs => .sequence i (regexTargetsList targets f cs)
  | .aliasN i t => .aliasN i (regexTargets targets f t)

/-- Children, rewritten elementwise. -/
def regexTargetsList (targets : List Nat) (f : String → String) : List Node → List Node
  | [] => []
  | c :: rest => regexTargets targets f c :: regexTargetsList targets f rest

end

/-- replace from engine.go: parse, resolve, fail on zero nodes, else
overwrite every resolved node with the node encoded from the payload. -/
def replaceAction (o : RegexOracle) (root : Node) (rule : Rule) : Except String Node :=
  match Parse o rule.path with
  | .error e => .error s!"parse path: {e}"
  | .ok p =>
    match findRecursive o root p.segments with
    | .error e => .error s!"find nodes: {e}"
    | .ok [] => .error "no nodes found"
    | .ok nodes =>
      .ok (replaceTargets (nodes.map Node.id) (encodeValue rule.value) root)

/-- set from engine.go: same resolution and zero-node contract as
replace, with the primitive-tagging value assignment. -/
def setAction (o : RegexOracle) (root : Node) (rule : Rule) : Except String Node :=
  match Parse o rule.path with
  | .error e => .error s!"parse path: {e}"
  | .ok p =>
    match findRecursive o root p.segments with
    | .error e => .error s!"find nodes: {e}"
    | .ok [] => .error "no nodes found"
    | .ok nodes => .ok (setTargets (nodes.map Node.id) rule.value root)

/-- delete from engine.go: resolve via FindWithWhere; zero resolved nodes
is a silent no-op (the tree is returned untouched); otherwise each target
is excised by a whole-tree walk, one walk per target, in order. -/
def deleteAction (o : RegexOracle) (root : Node) (rule : Rule) : Except String Node :=
  match Parse o rule.path with
  | .error e => .error s!"parse path: {e}"
  | .ok p =>
    match FindWithWhere o root p rule.whereC with
    | .error e => .error s!"find nodes: {e}"
    | .ok [] => .ok root
    | .ok nodes => .ok (nodes.foldl (fun t target => deleteNodeRec target.id t) root)

/-- regexReplace from engine.go: parse, resolve, fail on zero nodes, then
require a nonempty pattern that compiles and a string replacement, and
rewrite the scalar resolved nodes. -/
def regexReplaceAction (o : RegexOracle) (root : Node) (rule : Rule) : Except String Node :=
  match Parse o rule.path with
  | .error e => .error s!"parse path: {e}"
  | .ok p =>
    match findRecursive o root p.segments with
    | .error e => .error s!"find nodes: {e}"
    | .ok [] => .error "no nodes found"
    | .ok nodes =>
      if rule.pattern = "" then .error "pattern is required for regex_replace"
      else if !o.compileGoOK rule.pattern then .error "compile regex"
      else
        match rule.value with
        | .strV replacement =>
          .ok (regexTargets (nodes.map Node.id)
            (fun v => o.replaceAll rule.pattern v replacement) root)
        | _ => .error "replacement must be string"

/-- Apply from engine.go: dispatch on the rule's action. -/
def Apply (o : RegexOracle) (root : Node) (rule : Rule) : Except String Node :=
  match rule.action with
  | .replace => replaceAction o root rule
  | .set => setAction o root rule
  | .delete => deleteAction o root rule
  | .regexReplace => regexReplaceAction o root rule

/-! ## Auxiliary notions used by the statements -/

/-- The node list a Go caller observes from a find result used inside the
element loops: the `.ok` payload, `[]` when the element's remainder failed
(the loop `continue`s). -/
def exceptList : Except String (List Node) → List Node
  | .ok l => l
  | .error _ => []

mutual

/-- All node identities occurring in a subtree (the pointers a Go walk
could reach). -/
def nodeIds : Node → List Nat
  | .document i cs => i :: nodeIdsList cs
  | .mapping i cs => i :: nodeIdsList cs
  | .sequence i cs => i :: nodeIdsList cs
  | .scalar i _ _ => [i]
  | .aliasN i t => i :: nodeIds t

/-- Identities of a node list. -/
def nodeIdsList : List Node → List Nat
  | [] => []
  | c :: rest => nodeIds c ++ nodeIdsList rest

end

/-- `Occurs x t`: the node `x` is a subterm of the tree `t` (i.e. the
pointer `x` is reachable from `t`): find is read-only precisely in the
sense that every node it returns already occurs in the input tree. -/
inductive Occurs : Node → Node → Prop where
  | refl (n : Node) : Occurs n n
  | inDoc {x c : Node} (i : Nat) (cs : List Node) :
      c ∈ cs → Occurs x c → Occurs x (.document i cs)
  | inMap {x c : Node} (i : Nat) (cs : List Node) :
      c ∈ cs → Occurs x c → Occurs x (.mapping i cs)
  | inSeq {x c : Node} (i : Nat) (cs : List Node) :
      c ∈ cs → Occurs x c → Occurs x (.sequence i cs)
  | inAlias {x t : Node} (i : Nat) : Occurs x t → Occurs x (.aliasN i t)

/-! ## Concrete sample data (used to instantiate the general theorems) -/

/-- A `{name: <nm>}` mapping element with distinct identities. -/
def namedElem (base : Nat) (nm : String) : Node :=
  .mapping base [.scalar (base + 1) "!!str" "name", .scalar (base + 2) "!!str" nm]

/-- Scenario B input: a Mapping whose `items` member is a Sequence of four
named elements. -/
def scenarioBRoot : Node :=
  .mapping 1 [.scalar 2 "!!str" "items",
    .sequence 3 [namedElem 10 "foo1", namedElem 20 "foo2",
      namedElem 30 "foo3", namedElem 40 "foo4"]]

/-- Scenario B rule: delete `items[*]` where name_not_in = [foo1, foo2]. -/
def scenarioBRule : Rule :=
  { action := .delete, path := "items[*]", value := .null, pattern := "",
    whereC := some { nameRegex := "", nameNotIn := ["foo1", "foo2"], nameIn := [] },
    continueOnNotFound := false }

/-- Scenario B expected output: only foo1 and foo2 survive, in order. -/
def scenarioBExpected : Node :=
  .mapping 1 [.scalar 2 "!!str" "items",
    .sequence 3 [namedElem 10 "foo1", namedElem 20 "foo2"]]

/-- A tree whose `env` member is an empty Sequence (so `env[*]` resolves
to zero nodes without error). -/
def emptySeqRoot : Node :=
  .mapping 1 [.scalar 2 "!!str" "env", .sequence 3 []]

/-- A delete rule whose address resolves to zero candidates on
`emptySeqRoot`. -/
def deleteRuleEmpty : Rule :=
  { action := .delete, path := "env[*]", value := .null, pattern := "",
    whereC := none, continueOnNotFound := false }

/-- The same address under replace. -/
def replaceRuleEmpty : Rule :=
  { action := .replace, path := "env[*]", value := .strV "x", pattern := "",
    whereC := none, continueOnNotFound := false }

/-- The same address under set. -/
def setRuleEmpty : Rule :=
  { action := .set, path := "env[*]", value := .strV "x", pattern := "",
    whereC := none, continueOnNotFound := false }

/-- The same address under regex_replace. -/
def regexRuleEmpty : Rule :=
  { action := .regexReplace, path := "env[*]", value := .strV "x", pattern := "p",
    whereC := none, continueOnNotFound := false }

/-- A `{name: <nm>, image: <img>}` container element. -/
def containerElem (base : Nat) (nm img : String) : Node :=
  .mapping base [.scalar (base + 1) "!!str" "name", .scalar (base + 2) "!!str" nm,
    .scalar (base + 3) "!!str" "image", .scalar (base + 4) "!!str" img]

/-- Content of a Mapping whose `containers` member is a two-element
Sequence (the Scenario A shape). -/
def containersContent : List Node :=
  [.scalar 4 "!!str" "containers",
   .sequence 5 [containerElem 10 "nginx" "old", containerElem 20 "other" "x"]]

/-- A small `{image: old}` tree for the replace/find witnesses. -/
def imageRoot : Node :=
  .mapping 1 [.scalar 2 "!!str" "image", .scalar 3 "!!str" "old"]

/-- An oracle that rejects every pattern and errors on every match. -/
def oracleNone : RegexOracle :=
  { compile2OK := fun _ => false
    matchString := fun _ _ => none
    compileGoOK := fun _ => false
    replaceAll := fun _ s _ => s }

/-- Shorthand for a plain field segment, as Parse builds it. -/
def segField (f : String) : Segment :=
  { type := .fieldT, field := f, selector := none }

/-- Shorthand for an array-access segment. -/
def segArray (f : String) (sel : Selector) : Segment :=
  { type := .arrayT, field := f, selector := some sel }

/-- Shorthand for the wildcard selector, as Parse builds it. -/
def selWildcardS : Selector :=
  { type := .wildcard, condition := none }

/-- Shorthand for an index selector, as Parse builds it. -/
def selIndexS (n : Int) : Selector :=
  { type := .index, condition := some { field := "_index", op := .opEqual, value := .intV n } }

/-- Shorthand for a condition selector. -/
def selCondS (c : Condition) : Selector :=
  { type := .condition, condition := some c }

/-- replace rule rewriting `image` with the string `new`. -/
def imageReplaceRule : Rule :=
  { action := .replace, path := "image", value := .strV "new", pattern := "",
    whereC := none, continueOnNotFound := false }

/-! ## Lemmas about the path compiler -/

theorem stringMk_ne_empty {l : List Char} (h : l ≠ []) : String.mk l ≠ "" := by
  intro he
  exact h (by simpa using congrArg String.data he)

theorem splitPathAux_parts_ne_nil :
    ∀ (l cur : List Char) (inB : Bool) (parts : List String),
      parts ≠ [] → splitPathAux l cur inB parts ≠ []
  | [], cur, inB, parts, h => by
    rw [splitPathAux]
    split
    · exact h
    · simp
  | c :: rest, cur, inB, parts, h => by
    rw [splitPathAux]
    split_ifs with h1 h2 h3 h4
    · exact splitPathAux_parts_ne_nil rest _ _ _ h
    · exact splitPathAux_parts_ne_nil rest _ _ _ h
    · exact splitPathAux_parts_ne_nil rest _ _ _ h
    · exact splitPathAux_parts_ne_nil rest _ _ _ h
    · exact splitPathAux_parts_ne_nil rest _ _ _ (by simp)
    · exact splitPathAux_parts_ne_nil rest _ _ _ h

theorem splitPathAux_cur_ne_nil :
    ∀ (l cur : List Char) (inB : Bool) (parts : List String),
      cur ≠ [] → splitPathAux l cur inB parts ≠ []
  | [], cur, inB, parts, h => by
    rw [splitPathAux]
    rw [if_neg (by simpa [List.isEmpty_iff] using h)]
    simp
  | c :: rest, cur, inB, parts, h => by
    rw [splitPathAux]
    split_ifs with h1 h2 h3 h4 h5
    · exact splitPathAux_cur_ne_nil rest _ _ _ (by simp)
    · exact splitPathAux_cur_ne_nil rest _ _ _ (by simp)
    · exact splitPathAux_cur_ne_nil rest _ _ _ (by simp)
    · exact absurd (List.isEmpty_iff.mp h5) h
    · exact splitPathAux_parts_ne_nil rest _ _ _ (by simp)
    · exact splitPathAux_cur_ne_nil rest _ _ _ (by simp)

theorem splitPathAux_ne_nil :
    ∀ (l cur : List Char) (inB : Bool) (parts : List String),
      (∃ c ∈ l, c ≠ '.') → splitPathAux l cur inB parts ≠ []
  | c :: rest, cur, inB, parts, h => by
    rw [splitPathAux]
    split_ifs with h1 h2 h3 h4
    · exact splitPathAux_cur_ne_nil rest _ _ _ (by simp)
    · exact splitPathAux_cur_ne_nil rest _ _ _ (by simp)
    · exact splitPathAux_cur_ne_nil rest _ _ _ (by simp)
    · obtain ⟨d, hd, hne⟩ := h
      rcases List.mem_cons.mp hd with rfl | hd'
      · exact absurd h3 hne
      · exact splitPathAux_ne_nil rest _ _ _ ⟨d, hd', hne⟩
    · exact splitPathAux_parts_ne_nil rest _ _ _ (by simp)
    · exact splitPathAux_cur_ne_nil rest _ _ _ (by simp)

theorem splitPathAux_all_dots :
    ∀ (l : List Char) (parts : List String),
      (∀ c ∈ l, c = '.') → splitPathAux l [] false parts = parts
  | [], parts, _ => by rw [splitPathAux]; simp
  | c :: rest, parts, h => by
    have hc : c = '.' := h c (by simp)
    subst hc
    rw [splitPathAux]
    rw [if_neg (by decide), if_neg (by decide), if_pos rfl, if_neg (by decide),
      if_pos (by simp)]
    exact splitPathAux_all_dots rest parts (fun d hd => h d (by simp [hd]))

theorem parseParts_length (o : RegexOracle) :
    ∀ (parts : List String) (segs : List Segment),
      parseParts o parts = .ok segs → segs.length = parts.length
  | [], segs, h => by
    rw [parseParts] at h
    cases h
    rfl
  | p :: rest, segs, h => by
    rw [parseParts] at h
    cases hps : parseSegment o p with
    | error e => rw [hps] at h; cases h
    | ok seg =>
      rw [hps] at h
      cases hr : parseParts o rest with
      | error e => rw [hr] at h; cases h
      | ok segs' =>
        rw [hr] at h
        cases h
        simp [parseParts_length o rest segs' hr]

theorem atoi?_eq_none_of_eq_mem (s : String) (h : '=' ∈ s.data) : atoi? s = none := by
  have hall : ∀ l : List Char, '=' ∈ l → l.all Char.isDigit = false := by
    intro l hl
    rw [List.all_eq_false]
    exact ⟨'=', hl, by decide⟩
  rw [atoi?.eq_def]
  split
  · rfl
  · next c rest heq =>
    rw [heq] at h
    by_cases hc : c = '='
    · subst hc
      rw [if_neg (by decide), if_neg (by decide), if_neg (by simp [List.all_cons])]
    · have h' : '=' ∈ rest := by
        rcases List.mem_cons.mp h with h' | h'
        · exact absurd h'.symm hc
        · exact h'
      have hallr := hall rest h'
      by_cases hplus : c = '+'
      · rw [if_pos hplus, if_neg (by simp [hallr])]
      · rw [if_neg hplus]
        by_cases hminus : c = '-'
        · rw [if_pos hminus, if_neg (by simp [hallr])]
        · rw [if_neg hminus, if_neg (by simp [List.all_cons, hallr])]

theorem splitFirstEq_append :
    ∀ (a b : List Char), '=' ∉ a → splitFirstEq (a ++ '=' :: b) = (a, b)
  | [], b, _ => by rw [List.nil_append, splitFirstEq, if_pos rfl]
  | c :: a, b, h => by
    have hc : c ≠ '=' := fun hc => h (by simp [hc])
    rw [List.cons_append, splitFirstEq, if_neg hc,
      splitFirstEq_append a b (fun ha => h (by simp [ha]))]

theorem indexOfLBracket_append :
    ∀ (a : List Char) (b : List Char), '[' ∉ a →
      indexOfLBracket (a ++ '[' :: b) = some a.length
  | [], b, _ => by rw [List.nil_append, indexOfLBracket, if_pos rfl]; rfl
  | c :: a, b, h => by
    have hc : c ≠ '[' := fun hc => h (by simp [hc])
    rw [List.cons_append, indexOfLBracket, if_neg hc,
      indexOfLBracket_append a b (fun ha => h (by simp [ha]))]
    rfl

theorem findClosingBracketAux_none :
    ∀ (l : List Char) (i : Nat) (r : Bool), ']' ∉ l →
      findClosingBracketAux l i r = none
  | [], _, _, _ => by rw [findClosingBracketAux]
  | c :: rest, i, r, h => by
    have hc : c ≠ ']' := fun hc => h (by simp [hc])
    rw [findClosingBracketAux, if_neg (by simp [hc])]
    exact findClosingBracketAux_none rest _ _ (fun hr => h (by simp [hr]))

theorem parseSegment_no_closing (o : RegexOracle) (fld s : List Char)
    (hfl : '[' ∉ fld) (hs : ']' ∉ s) :
    parseSegment o (String.mk (fld ++ '[' :: s)) = .error "no closing bracket" := by
  have h1 : indexOfLBracket (String.mk (fld ++ '[' :: s)).data = some fld.length := by
    simpa using indexOfLBracket_append fld s hfl
  have h2 : findClosingBracket (String.mk (fld ++ '[' :: s)) (fld.length + 1) = none := by
    rw [findClosingBracket]
    have hdrop : (String.mk (fld ++ '[' :: s)).data.drop (fld.length + 1) = s := by
      show (fld ++ '[' :: s).drop (fld.length + 1) = s
      have he : (fld ++ '[' :: s) = (fld ++ ['[']) ++ s := by simp
      have hlen : (fld ++ ['[']).length = fld.length + 1 := by simp
      rw [he, ← hlen, List.drop_left]
    rw [hdrop]
    exact findClosingBracketAux_none s _ _ hs
  rw [parseSegment, if_pos (by simp), parseArraySegment, h1]
  dsimp only
  rw [h2]

theorem parseSelector_cond (o : RegexOracle) (fld v : List Char) (hf : '=' ∉ fld) :
    parseSelector o (String.mk (fld ++ '=' :: v)) =
      (if String.mk fld = "" then .error "field name cannot be empty"
       else if startsWithAt (String.mk v) ∧ endsWithAt (String.mk v) then
         if trimAts (String.mk v) = "" then .error "regex pattern cannot be empty"
         else if o.compile2OK (trimAts (String.mk v)) then
           .ok { type := .condition,
                 condition := some { field := String.mk fld, op := .opRegex,
                                     value := .strV (trimAts (String.mk v)) } }
         else .error "invalid regex pattern"
       else .ok { type := .condition,
                  condition := some { field := String.mk fld, op := .opEqual,
                                      value := .strV (String.mk v) } }) := by
  have hmem : '=' ∈ (String.mk (fld ++ '=' :: v)).data := by simp
  have hstar : String.mk (fld ++ '=' :: v) ≠ "*" := by
    intro he
    rw [he] at hmem
    exact absurd hmem (by decide)
  have hq : String.mk (fld ++ '=' :: v) ≠ "?" := by
    intro he
    rw [he] at hmem
    exact absurd hmem (by decide)
  have hsplit : splitFirstEq (String.mk (fld ++ '=' :: v)).data = (fld, v) := by
    simpa using splitFirstEq_append fld v hf
  rw [parseSelector, if_neg hstar, if_neg hq, atoi?_eq_none_of_eq_mem _ hmem]
  dsimp only
  rw [if_pos (by simp), hsplit]

theorem parseSelector_empty_field (o : RegexOracle) (v : List Char) :
    parseSelector o (String.mk ('=' :: v)) = .error "field name cannot be empty" := by
  have h := parseSelector_cond o [] v (by simp)
  rw [List.nil_append] at h
  rw [h, if_pos rfl]

theorem parseSelector_regex_branch (o : RegexOracle) (fld pat : List Char)
    (hf0 : fld ≠ []) (hf : '=' ∉ fld) (hp0 : pat ≠ [])
    (hph : pat.head? ≠ some '@') (hpl : pat.getLast? ≠ some '@') :
    parseSelector o (String.mk (fld ++ '=' :: '@' :: (pat ++ ['@']))) =
      (if o.compile2OK (String.mk pat) then
        .ok { type := .condition,
              condition := some { field := String.mk fld, op := .opRegex,
                                  value := .strV (String.mk pat) } }
       else .error "invalid regex pattern") := by
  have hmain := parseSelector_cond o fld ('@' :: (pat ++ ['@'])) hf
  have hstart : startsWithAt (String.mk ('@' :: (pat ++ ['@']))) = true := rfl
  have hend : endsWithAt (String.mk ('@' :: (pat ++ ['@']))) = true := by
    simp only [endsWithAt, decide_eq_true_eq]
    show ('@' :: (pat ++ ['@'])).getLast? = some '@'
    rw [show ('@' :: (pat ++ ['@'])) = ('@' :: pat) ++ ['@'] from by simp,
      List.getLast?_concat]
  have htrim : trimAts (String.mk ('@' :: (pat ++ ['@']))) = String.mk pat := by
    rw [trimAts]
    congr 1
    show ((('@' :: (pat ++ ['@'])).dropWhile (fun c => c = '@')).reverse.dropWhile
      (fun c => c = '@')).reverse = pat
    obtain ⟨c, pr, rfl⟩ : ∃ c pr, pat = c :: pr := by
      cases pat with
      | nil => exact absurd rfl hp0
      | cons c pr => exact ⟨c, pr, rfl⟩
    have hc : c ≠ '@' := by
      intro hc
      exact hph (by simp [hc])
    obtain ⟨d, sfx, hrev⟩ : ∃ d sfx, (c :: pr).reverse = d :: sfx := by
      cases hr : (c :: pr).reverse with
      | nil => simp at hr
      | cons d sfx => exact ⟨d, sfx, rfl⟩
    have hd : d ≠ '@' := by
      intro hd
      apply hpl
      rw [← List.head?_reverse, hrev, hd]
      rfl
    rw [List.dropWhile_cons, if_pos (by decide), List.cons_append,
      List.dropWhile_cons, if_neg (by simp [hc])]
    rw [show (c :: (pr ++ ['@'])).reverse = '@' :: (c :: pr).reverse from by simp,
      List.dropWhile_cons, if_pos (by decide), hrev,
      List.dropWhile_cons, if_neg (by simp [hd]), ← hrev]
    simp
  rw [hmain, if_neg (stringMk_ne_empty hf0), if_pos ⟨hstart, hend⟩, htrim,
    if_neg (stringMk_ne_empty hp0)]

theorem parseSelector_empty_pattern (o : RegexOracle) (fld : List Char)
    (hf0 : fld ≠ []) (hf : '=' ∉ fld) :
    parseSelector o (String.mk (fld ++ '=' :: '@' :: ['@'])) =
      .error "regex pattern cannot be empty" := by
  have hmain := parseSelector_cond o fld ['@', '@'] hf
  rw [hmain, if_neg (stringMk_ne_empty hf0), if_pos ⟨rfl, by decide⟩, if_pos (by decide)]

theorem matchCondLoop_regex_none (o : RegexOracle) (cond : Condition)
    (hop : cond.op = .opRegex) (herr : ∀ p v, o.matchString p v = none) :
    ∀ cs : List Node, matchCondLoop o cond cs = false
  | [] => rfl
  | [k] => rfl
  | k :: v :: rest => by
    rw [matchCondLoop]
    split_ifs with hk
    · rw [hop]
      cases cond.value with
      | strV pattern =>
        dsimp only
        rw [herr pattern v.val]
      | intV n => rfl
    · exact matchCondLoop_regex_none o cond hop herr rest

/-! ## Lemmas about the navigator -/

theorem findArrayLoop_eq (o : RegexOracle) (seg : Segment) (rest : List Segment) :
    ∀ cs : List Node, findArrayLoop o seg rest cs =
      (match lookupArrayNode seg.field cs with
       | none => .error s!"array field '{seg.field}' not found"
       | some v => arrayDispatch o seg rest v)
  | [] => rfl
  | [k] => rfl
  | k :: v :: tail => by
    rw [findArrayLoop, lookupArrayNode]
    split_ifs with hk
    · rfl
    · exact findArrayLoop_eq o seg rest tail

theorem lookupArrayNode_mem (field : String) :
    ∀ (cs : List Node) (v : Node), lookupArrayNode field cs = some v → v ∈ cs
  | k :: w :: tail, v, h => by
    rw [lookupArrayNode] at h
    split_ifs at h with hk
    · cases h
      simp
    · have := lookupArrayNode_mem field tail v h
      simp [this]

theorem wildcardLoop_eq (o : RegexOracle) (rest : List Segment) :
    ∀ es : List Node,
      wildcardLoop o rest es = es.flatMap (fun e => exceptList (findRecursive o e rest))
  | [] => rfl
  | e :: tail => by
    rw [wildcardLoop, List.flatMap_cons, wildcardLoop_eq o rest tail]
    cases findRecursive o e rest <;> rfl

theorem condLoop_eq (o : RegexOracle) (cond : Condition) (rest : List Segment) :
    ∀ es : List Node,
      condLoop o cond rest es =
        es.flatMap (fun e =>
          if matchCondition o e cond then exceptList (findRecursive o e rest) else [])
  | [] => rfl
  | e :: tail => by
    rw [condLoop, List.flatMap_cons, condLoop_eq o cond rest tail]
    by_cases hm : matchCondition o e cond
    · rw [if_pos hm, if_pos hm]
      cases findRecursive o e rest <;> rfl
    · rw [if_neg hm, if_neg hm]

theorem indexLoop_in_range (o : RegexOracle) (orig : Int) (rest : List Segment) :
    ∀ (k : Nat) (es : List Node) (e : Node), es[k]? = some e →
      indexLoop o orig rest k es = findRecursive o e rest
  | 0, e' :: tail, e, h => by
    rw [show e = e' from by simpa using h.symm]
    rfl
  | k + 1, e' :: tail, e, h => by
    rw [indexLoop]
    exact indexLoop_in_range o orig rest k tail e (by simpa using h)
  | 0, [], e, h => by cases h
  | k + 1, [], e, h => by cases h

theorem indexLoop_out_of_range (o : RegexOracle) (orig : Int) (rest : List Segment) :
    ∀ (k : Nat) (es : List Node), es.length ≤ k →
      indexLoop o orig rest k es = .error s!"index {orig} out of range"
  | _, [], _ => by rw [indexLoop]
  | 0, e :: tail, h => by simp at h
  | k + 1, e :: tail, h => by
    rw [indexLoop]
    exact indexLoop_out_of_range o orig rest k tail (by simpa using h)

/-! ## Structural induction and size lemmas for Node -/

theorem sizeOf_lt_document {c : Node} (i : Nat) (cs : List Node) (hc : c ∈ cs) :
    sizeOf c < sizeOf (Node.document i cs) := by
  have := List.sizeOf_lt_of_mem hc
  simp only [Node.document.sizeOf_spec]
  omega

theorem sizeOf_lt_mapping {c : Node} (i : Nat) (cs : List Node) (hc : c ∈ cs) :
    sizeOf c < sizeOf (Node.mapping i cs) := by
  have := List.sizeOf_lt_of_mem hc
  simp only [Node.mapping.sizeOf_spec]
  omega

theorem sizeOf_lt_sequence {c : Node} (i : Nat) (cs : List Node) (hc : c ∈ cs) :
    sizeOf c < sizeOf (Node.sequence i cs) := by
  have := List.sizeOf_lt_of_mem hc
  simp only [Node.sequence.sizeOf_spec]
  omega

theorem sizeOf_lt_alias (i : Nat) (t : Node) : sizeOf t < sizeOf (Node.aliasN i t) := by
  simp only [Node.aliasN.sizeOf_spec]
  omega

theorem sizeOf_node_pos (n : Node) : 0 < sizeOf n := by
  cases n <;> simp_arith

theorem node_induction (P : Node → Prop)
    (hscalar : ∀ i t v, P (.scalar i t v))
    (halias : ∀ i t, P t → P (.aliasN i t))
    (hdoc : ∀ i cs, (∀ c ∈ cs, P c) → P (.document i cs))
    (hmap : ∀ i cs, (∀ c ∈ cs, P c) → P (.mapping i cs))
    (hseq : ∀ i cs, (∀ c ∈ cs, P c) → P (.sequence i cs)) :
    ∀ n, P n := by
  have key : ∀ (N : Nat) (n : Node), sizeOf n ≤ N → P n := by
    intro N
    induction N with
    | zero =>
      intro n hn
      have := sizeOf_node_pos n
      omega
    | succ N ih =>
      intro n hn
      cases n with
      | scalar i t v => exact hscalar i t v
      | aliasN i t =>
        exact halias i t (ih t (by have := sizeOf_lt_alias i t; omega))
      | document i cs =>
        exact hdoc i cs (fun c hc => ih c (by have := sizeOf_lt_document i cs hc; omega))
      | mapping i cs =>
        exact hmap i cs (fun c hc => ih c (by have := sizeOf_lt_mapping i cs hc; omega))
      | sequence i cs =>
        exact hseq i cs (fun c hc => ih c (by have := sizeOf_lt_sequence i cs hc; omega))
  exact fun n => key (sizeOf n) n le_rfl

theorem nodeIdsList_mem : ∀ (cs : List Node) (c : Node), c ∈ cs →
    ∀ j ∈ nodeIds c, j ∈ nodeIdsList cs
  | d :: rest, c, hc, j, hj => by
    rw [nodeIdsList]
    rcases List.mem_cons.mp hc with rfl | hc'
    · exact List.mem_append_left _ hj
    · exact List.mem_append_right _ (nodeIdsList_mem rest c hc' j hj)

theorem id_mem_nodeIds (n : Node) : n.id ∈ nodeIds n := by
  cases n <;> simp [nodeIds, Node.id]

/-! ## Lemmas about the mutation engine -/

theorem replaceTargetsList_eq_map (tgt : List Nat) (new : Node) :
    ∀ cs : List Node, replaceTargetsList tgt new cs = cs.map (replaceTargets tgt new)
  | [] => rfl
  | c :: rest => by
    rw [replaceTargetsList, List.map_cons, replaceTargetsList_eq_map tgt new rest]

theorem replaceTargets_frame (tgt : List Nat) (new : Node) :
    ∀ n : Node, (∀ i ∈ nodeIds n, tgt.contains i = false) → replaceTargets tgt new n = n := by
  refine node_induction
    (fun n => (∀ i ∈ nodeIds n, tgt.contains i = false) → replaceTargets tgt new n = n)
    ?_ ?_ ?_ ?_ ?_
  · intro i t v h
    rw [replaceTargets, if_neg (by simpa using h _ (id_mem_nodeIds _))]
  · intro i t iht h
    rw [replaceTargets, if_neg (by simpa using h _ (id_mem_nodeIds _))]
    rw [iht (fun j hj => h j (by simp [nodeIds, hj]))]
  · intro i cs ih h
    rw [replaceTargets, if_neg (by simpa using h _ (id_mem_nodeIds _))]
    rw [replaceTargetsList_eq_map]
    have : cs.map (replaceTargets tgt new) = cs.map id := by
      refine List.map_congr_left ?_
      intro c hc
      exact ih c hc (fun j hj => h j (by simp [nodeIds, nodeIdsList_mem cs c hc j hj]))
    rw [this, List.map_id]
  · intro i cs ih h
    rw [replaceTargets, if_neg (by simpa using h _ (id_mem_nodeIds _))]
    rw [replaceTargetsList_eq_map]
    have : cs.map (replaceTargets tgt new) = cs.map id := by
      refine List.map_congr_left ?_
      intro c hc
      exact ih c hc (fun j hj => h j (by simp [nodeIds, nodeIdsList_mem cs c hc j hj]))
    rw [this, List.map_id]
  · intro i cs ih h
    rw [replaceTargets, if_neg (by simpa using h _ (id_mem_nodeIds _))]
    rw [replaceTargetsList_eq_map]
    have : cs.map (replaceTargets tgt new) = cs.map id := by
      refine List.map_congr_left ?_
      intro c hc
      exact ih c hc (fun j hj => h j (by simp [nodeIds, nodeIdsList_mem cs c hc j hj]))
    rw [this, List.map_id]

/-! ## Loop lemmas for the read-only property of Find -/

theorem findFieldLoop_ok (o : RegexOracle) (seg : Segment) (rest : List Segment) :
    ∀ (cs : List Node) (l : List Node), findFieldLoop o seg rest cs = .ok l →
      ∃ v ∈ cs, findRecursive o v rest = .ok l
  | k :: v :: tail, l, h => by
    rw [findFieldLoop] at h
    split_ifs at h with hk
    · exact ⟨v, by simp, h⟩
    · obtain ⟨v', hv', hf⟩ := findFieldLoop_ok o seg rest tail l h
      exact ⟨v', by simp [hv'], hf⟩
  | [], l, h => by simp [findFieldLoop] at h
  | [k], l, h => by simp [findFieldLoop] at h

theorem wildcardLoop_mem (o : RegexOracle) (rest : List Segment) :
    ∀ (es : List Node) (x : Node), x ∈ wildcardLoop o rest es →
      ∃ e ∈ es, ∃ l, findRecursive o e rest = .ok l ∧ x ∈ l
  | [], x, hx => by rw [wildcardLoop] at hx; cases hx
  | e :: tail, x, hx => by
    rw [wildcardLoop] at hx
    rcases List.mem_append.mp hx with h1 | h2
    · cases hf : findRecursive o e rest with
      | ok m =>
        rw [hf] at h1
        exact ⟨e, by simp, m, hf, h1⟩
      | error err =>
        rw [hf] at h1
        cases h1
    · obtain ⟨e', he', l, hf, hx'⟩ := wildcardLoop_mem o rest tail x h2
      exact ⟨e', by simp [he'], l, hf, hx'⟩

theorem condLoop_mem (o : RegexOracle) (cond : Condition) (rest : List Segment) :
    ∀ (es : List Node) (x : Node), x ∈ condLoop o cond rest es →
      ∃ e ∈ es, ∃ l, findRecursive o e rest = .ok l ∧ x ∈ l
  | [], x, hx => by rw [condLoop] at hx; cases hx
  | e :: tail, x, hx => by
    rw [condLoop] at hx
    rcases List.mem_append.mp hx with h1 | h2
    · split_ifs at h1 with hm
      · cases hf : findRecursive o e rest with
        | ok m =>
          rw [hf] at h1
          exact ⟨e, by simp, m, hf, h1⟩
        | error err =>
          rw [hf] at h1
          cases h1
      · cases h1
    · obtain ⟨e', he', l, hf, hx'⟩ := condLoop_mem o cond rest tail x h2
      exact ⟨e', by simp [he'], l, hf, hx'⟩

theorem indexLoop_ok (o : RegexOracle) (orig : Int) (rest : List Segment) :
    ∀ (k : Nat) (es : List Node) (l : List Node), indexLoop o orig rest k es = .ok l →
      ∃ e ∈ es, findRecursive o e rest = .ok l
  | _, [], l, h => by rw [indexLoop] at h; cases h
  | 0, e :: tail, l, h => ⟨e, by simp, h⟩
  | k + 1, e :: tail, l, h => by
    rw [indexLoop] at h
    obtain ⟨e', he', hf⟩ := indexLoop_ok o orig rest k tail l h
    exact ⟨e', by simp [he'], hf⟩

theorem findRecursive_occurs_bounded (o : RegexOracle) :
    ∀ (N : Nat) (node : Node), sizeOf node ≤ N →
      ∀ (segs : List Segment) (l : List Node), findRecursive o node segs = .ok l →
        ∀ x ∈ l, Occurs x node := by
  intro N
  induction N with
  | zero =>
    intro node hn
    have := sizeOf_node_pos node
    omega
  | succ N ih =>
    intro node hn segs l h x hx
    cases segs with
    | nil =>
      rw [findRecursive] at h
      cases h
      rw [List.mem_singleton.mp hx]
      exact Occurs.refl node
    | cons seg rest =>
      cases node with
      | scalar i t v =>
        rw [findRecursive] at h
        cases htype : seg.type <;> rw [htype] at h <;> cases h
      | sequence i cs =>
        rw [findRecursive] at h
        cases htype : seg.type <;> rw [htype] at h <;> cases h
      | document i cs =>
        cases cs with
        | nil => rw [findRecursive] at h; cases h
        | cons c cs' =>
          rw [findRecursive] at h
          have hocc := ih c
            (by have := sizeOf_lt_document i (c :: cs') (List.mem_cons_self c cs'); omega)
            (seg :: rest) l h x hx
          exact Occurs.inDoc i (c :: cs') (by simp) hocc
      | aliasN i t =>
        rw [findRecursive] at h
        have hocc := ih t (by have := sizeOf_lt_alias i t; omega) (seg :: rest) l h x hx
        exact Occurs.inAlias i hocc
      | mapping i cs =>
        rw [findRecursive] at h
        cases htype : seg.type with
        | fieldT =>
          rw [htype] at h
          obtain ⟨v, hv, hfv⟩ := findFieldLoop_ok o seg rest cs l h
          have hocc := ih v (by have := sizeOf_lt_mapping i cs hv; omega) rest l hfv x hx
          exact Occurs.inMap i cs hv hocc
        | arrayT =>
          rw [htype] at h
          rw [findArrayLoop_eq] at h
          cases hlook : lookupArrayNode seg.field cs with
          | none => rw [hlook] at h; cases h
          | some v =>
            rw [hlook] at h
            have hvmem := lookupArrayNode_mem seg.field cs v hlook
            have hvsize : sizeOf v < sizeOf (Node.mapping i cs) := sizeOf_lt_mapping i cs hvmem
            cases v with
            | document vi vcs => simp only [arrayDispatch.eq_def] at h; cases h
            | mapping vi vcs => simp only [arrayDispatch.eq_def] at h; cases h
            | scalar vi vt vv => simp only [arrayDispatch.eq_def] at h; cases h
            | aliasN vi vt => simp only [arrayDispatch.eq_def] at h; cases h
            | sequence aid es =>
              simp only [arrayDispatch.eq_def] at h
              have hes : ∀ e ∈ es, sizeOf e ≤ N := by
                intro e he
                have h1 := sizeOf_lt_sequence aid es he
                omega
              cases hsel : seg.selector with
              | none => rw [hsel] at h; cases h
              | some sel =>
                rw [hsel] at h
                dsimp only at h
                cases hst : sel.type with
                | wildcard =>
                  rw [hst] at h
                  cases h
                  obtain ⟨e, he, l', hf', hx'⟩ := wildcardLoop_mem o rest es x hx
                  have hocc := ih e (hes e he) rest l' hf' x hx'
                  exact Occurs.inMap i cs hvmem (Occurs.inSeq aid es he hocc)
                | condition =>
                  rw [hst] at h
                  cases hcond : sel.condition with
                  | none => rw [hcond] at h; cases h
                  | some cond =>
                    rw [hcond] at h
                    dsimp only at h
                    split_ifs at h with hempty
                    cases h
                    obtain ⟨e, he, l', hf', hx'⟩ := condLoop_mem o cond rest es x hx
                    have hocc := ih e (hes e he) rest l' hf' x hx'
                    exact Occurs.inMap i cs hvmem (Occurs.inSeq aid es he hocc)
                | index =>
                  rw [hst] at h
                  cases hcond : sel.condition with
                  | none => rw [hcond] at h; cases h
                  | some cond =>
                    rw [hcond] at h
                    dsimp only at h
                    cases hcv : cond.value with
                    | strV s => rw [hcv] at h; cases h
                    | intV idx =>
                      rw [hcv] at h
                      dsimp only at h
                      split_ifs at h with hneg
                      obtain ⟨e, he, hf'⟩ := indexLoop_ok o idx rest idx.toNat es l h
                      have hocc := ih e (hes e he) rest l hf' x hx
                      exact Occurs.inMap i cs hvmem (Occurs.inSeq aid es he hocc)

/-! ## Claim theorems -/

/-- C10: Find and FindWithWhere are read-only queries — they are pure
functions of the tree (they never produce a modified tree), and every
node reference they return already occurs in the input tree (FindWithWhere
additionally only filters Find's candidates), so resolution modifies no
node kind, tag, value, key or child list. -/
theorem c10_find_readonly (o : RegexOracle) :
    (∀ (root : Node) (p : Path) (l : List Node), Find o root p = .ok l →
        ∀ x ∈ l, Occurs x root)
    ∧ (∀ (root : Node) (p : Path) (w : Option WhereCondition) (l : List Node),
        FindWithWhere o root p w = .ok l → ∀ x ∈ l, Occurs x root)
    ∧ (∀ (root : Node) (p : Path) (wc : WhereCondition) (l cands : List Node),
        FindWithWhere o root p (some wc) = .ok l →
        findRecursive o root p.segments = .ok cands → ∀ x ∈ l, x ∈ cands) := by
  have hfind : ∀ (root : Node) (segs : List Segment) (l : List Node),
      findRecursive o root segs = .ok l → ∀ x ∈ l, Occurs x root :=
    fun root segs l h => findRecursive_occurs_bounded o (sizeOf root) root le_rfl segs l h
  refine ⟨fun root p l h => hfind root p.segments l h, ?_, ?_⟩
  · intro root p w l h x hx
    rw [FindWithWhere] at h
    cases hf : findRecursive o root p.segments with
    | error e => rw [hf] at h; cases h
    | ok candidates =>
      rw [hf] at h
      cases w with
      | none =>
        cases h
        exact hfind root p.segments _ hf x hx
      | some wc =>
        cases h
        exact hfind root p.segments _ hf x (List.mem_of_mem_filter hx)
  · intro root p wc l cands h hf
    rw [FindWithWhere, hf] at h
    cases h
    exact fun x hx => List.mem_of_mem_filter hx

/-- C10, witness: resolving `image` on a small tree returns exactly a
node that occurs in the input tree. -/
theorem c10_witness :
    Find oracleAll imageRoot { segments := [segField "image"] } = .ok [.scalar 3 "!!str" "old"]
    ∧ Occurs (.scalar 3 "!!str" "old") imageRoot := by
  refine ⟨rfl, ?_⟩
  exact (c10_find_readonly oracleAll).1 imageRoot { segments := [segField "image"] }
    [.scalar 3 "!!str" "old"] rfl (.scalar 3 "!!str" "old") (by simp)

/-- C3, counterexample: the path string `"."` is nonempty, is not a
compile-time error, and compiles successfully to an Address with zero
segments — contradicting "compile returns either a ParseError or an
Address with at least one segment". -/
theorem c3_counterexample :
    ("." : String) ≠ "" ∧ Parse oracleAll "." = .ok { segments := [] } :=
  ⟨by decide, rfl⟩

/-- C3, amended: the empty path string is a compile-time error, and a
successful compilation of a path containing at least one character other
than `.` always yields an Address with at least one segment; however a
nonempty path consisting entirely of dots (e.g. `"."`) compiles
successfully to an Address with zero segments. -/
theorem c3_amended (o : RegexOracle) :
    Parse o "" = .error "empty path"
    ∧ (∀ (s : String) (p : Path), (∃ c ∈ s.data, c ≠ '.') → Parse o s = .ok p →
        p.segments ≠ [])
    ∧ (∀ s : String, s ≠ "" → (∀ c ∈ s.data, c = '.') →
        Parse o s = .ok { segments := [] }) := by
  refine ⟨rfl, ?_, ?_⟩
  · intro s p hex hp
    rw [Parse] at hp
    split_ifs at hp with h0
    cases hpp : parseParts o (splitPath s) with
    | error e => rw [hpp] at hp; cases hp
    | ok segs =>
      rw [hpp] at hp
      cases hp
      have hsplit : splitPath s ≠ [] := splitPathAux_ne_nil s.data [] false [] hex
      have hlen := parseParts_length o (splitPath s) segs hpp
      intro hnil
      have hs0 : segs = [] := hnil
      rw [hs0] at hlen
      exact hsplit (List.length_eq_zero.mp hlen.symm)
  · intro s hs hdots
    rw [Parse, if_neg hs, splitPath, splitPathAux_all_dots s.data [] hdots, parseParts]

/-- C3, witness for the amended theorem at the concrete path `"a"`. -/
theorem c3_witness :
    (∃ c ∈ ("a" : String).data, c ≠ '.') ∧
    (∀ p : Path, Parse oracleAll "a" = .ok p → p.segments ≠ []) := by
  refine ⟨⟨'a', by decide, by decide⟩, ?_⟩
  intro p hp
  exact (c3_amended oracleAll).2.1 "a" p ⟨'a', by decide, by decide⟩ hp

/-- C5, counterexample: an unmatched `]` is not a ParseError (it is
absorbed into the field name), and an empty field name before a selector
is not a ParseError either — contradicting the claim that both are
reported as errors. -/
theorem c5_counterexample :
    Parse oracleAll "a]" = .ok { segments := [segField "a]"] }
    ∧ Parse oracleAll "[0]" = .ok { segments := [segArray "" (selIndexS 0)] } :=
  ⟨rfl, rfl⟩

/-- C5, amended: compile fails with a ParseError on the empty path
string, on a segment with an unmatched `[`, on an empty selector field
name, on an empty regex pattern and on an invalid embedded regex; but an
unmatched `]` with no preceding `[` is absorbed into the field name, and
an empty segment field name before `[` is accepted. -/
theorem c5_amended (o : RegexOracle) :
    Parse o "" = .error "empty path"
    ∧ (∀ fld s : List Char, '[' ∉ fld → ']' ∉ s →
        parseSegment o (String.mk (fld ++ '[' :: s)) = .error "no closing bracket")
    ∧ (∀ v : List Char, parseSelector o (String.mk ('=' :: v)) =
        .error "field name cannot be empty")
    ∧ (∀ fld : List Char, fld ≠ [] → '=' ∉ fld →
        parseSelector o (String.mk (fld ++ '=' :: '@' :: ['@'])) =
          .error "regex pattern cannot be empty")
    ∧ (∀ fld pat : List Char, fld ≠ [] → '=' ∉ fld → pat ≠ [] →
        pat.head? ≠ some '@' → pat.getLast? ≠ some '@' →
        o.compile2OK (String.mk pat) = false →
        parseSelector o (String.mk (fld ++ '=' :: '@' :: (pat ++ ['@']))) =
          .error "invalid regex pattern")
    ∧ Parse o "a]" = .ok { segments := [segField "a]"] }
    ∧ Parse o "[0]" = .ok { segments := [segArray "" (selIndexS 0)] } := by
  refine ⟨rfl, parseSegment_no_closing o, parseSelector_empty_field o,
    fun fld h1 h2 => parseSelector_empty_pattern o fld h1 h2,
    fun fld pat h1 h2 h3 h4 h5 h6 => ?_, rfl, rfl⟩
  rw [parseSelector_regex_branch o fld pat h1 h2 h3 h4 h5, if_neg (by simp [h6])]

/-- C5, witness for the amended theorem: concrete instances of the
unmatched-`[`, empty-selector-field, empty-pattern and invalid-regex
failures. -/
theorem c5_witness :
    parseSegment oracleNone (String.mk (['a'] ++ '[' :: ['0'])) = .error "no closing bracket"
    ∧ parseSelector oracleNone (String.mk ('=' :: ['x'])) = .error "field name cannot be empty"
    ∧ parseSelector oracleNone (String.mk (['n'] ++ '=' :: '@' :: ['@'])) =
        .error "regex pattern cannot be empty"
    ∧ parseSelector oracleNone (String.mk (['n'] ++ '=' :: '@' :: (['x'] ++ ['@']))) =
        .error "invalid regex pattern" := by
  obtain ⟨-, h2, h3, h4, h5, -, -⟩ := c5_amended oracleNone
  exact ⟨h2 ['a'] ['0'] (by decide) (by decide), h3 ['x'],
    h4 ['n'] (by decide) (by decide),
    h5 ['n'] ['x'] (by decide) (by decide) (by decide) (by decide) (by decide) rfl⟩

/-- C6, counterexample: a `]` inside a `@...@` regex literal does break
the segment: splitPath resets its bracket state at that `]`, so the later
`.` splits the path and compilation fails — contradicting the claim that
any `]` inside the `@...@` pattern neither splits nor terminates the
segment. -/
theorem c6_counterexample :
    splitPath "env[name=@a].b@]" = ["env[name=@a]", "b@]"]
    ∧ Parse oracleAll "env[name=@a].b@]" =
        .error "invalid segment 'env[name=@a]': no closing bracket" :=
  ⟨rfl, rfl⟩

/-- C6, amended: splitting into segments ignores a `.` inside `[...]`,
and findClosingBracket ignores a `]` inside `@...@`, so
`env[name=@^x.*$@]` compiles to exactly one ArrayAccess segment whose
Condition is RegexMatch with pattern `^x.*$` (the inner `.` does not split
it); but splitPath itself is not `@`-aware: a `]` inside the `@...@`
pattern resets its bracket state, so a subsequent `.` splits the segment
and such a path fails to compile. -/
theorem c6_amended (o : RegexOracle) (h : o.compile2OK "^x.*$" = true) :
    splitPath "env[name=@^x.*$@]" = ["env[name=@^x.*$@]"]
    ∧ Parse o "env[name=@^x.*$@]" =
        .ok { segments := [segArray "env"
          (selCondS { field := "name", op := .opRegex, value := .strV "^x.*$" })] }
    ∧ splitPath "env[name=@a].b@]" = ["env[name=@a]", "b@]"] := by
  refine ⟨rfl, ?_, rfl⟩
  simp [Parse, splitPath, splitPathAux, parseParts, parseSegment, parseArraySegment,
    parseSelector, indexOfLBracket, findClosingBracket, findClosingBracketAux, atoi?,
    splitFirstEq, trimAts, startsWithAt, endsWithAt, h, segArray, selCondS]

/-- C6, witness for the amended theorem at an oracle that accepts the
pattern. -/
theorem c6_witness :
    oracleAll.compile2OK "^x.*$" = true ∧
    Parse oracleAll "env[name=@^x.*$@]" =
      .ok { segments := [segArray "env"
        (selCondS { field := "name", op := .opRegex, value := .strV "^x.*$" })] } :=
  ⟨rfl, (c6_amended oracleAll rfl).2.1⟩

/-- C4: regex selector patterns are validated at parse time — a selector
`field=@pattern@` whose pattern the parse-time engine rejects is a
ParseError, one it accepts compiles to a RegexMatch Condition; and at
match time the condition matcher is a total Boolean function that treats
a match-time regex error as a non-match, so matching never surfaces a
regex failure. -/
theorem c4_regex_validation (o : RegexOracle) :
    (∀ fld pat : List Char, fld ≠ [] → '=' ∉ fld → pat ≠ [] →
      pat.head? ≠ some '@' → pat.getLast? ≠ some '@' →
      o.compile2OK (String.mk pat) = false →
      parseSelector o (String.mk (fld ++ '=' :: '@' :: (pat ++ ['@']))) =
        .error "invalid regex pattern")
    ∧ (∀ fld pat : List Char, fld ≠ [] → '=' ∉ fld → pat ≠ [] →
      pat.head? ≠ some '@' → pat.getLast? ≠ some '@' →
      o.compile2OK (String.mk pat) = true →
      parseSelector o (String.mk (fld ++ '=' :: '@' :: (pat ++ ['@']))) =
        .ok (selCondS { field := String.mk fld, op := .opRegex, value := .strV (String.mk pat) }))
    ∧ (∀ (node : Node) (cond : Condition), cond.op = .opRegex →
        (∀ p v, o.matchString p v = none) → matchCondition o node cond = false) := by
  refine ⟨fun fld pat h1 h2 h3 h4 h5 h6 => ?_, fun fld pat h1 h2 h3 h4 h5 h6 => ?_, ?_⟩
  · rw [parseSelector_regex_branch o fld pat h1 h2 h3 h4 h5, if_neg (by simp [h6])]
  · rw [parseSelector_regex_branch o fld pat h1 h2 h3 h4 h5, if_pos h6, selCondS]
  · intro node cond hop herr
    cases node with
    | mapping i cs => exact matchCondLoop_regex_none o cond hop herr cs
    | document i cs => rfl
    | sequence i cs => rfl
    | scalar i t v => rfl
    | aliasN i t => rfl

/-- C1: at an ArrayAccess segment whose field resolves to a Sequence, a
Condition selector evaluates the element-wise union of matches of the
surviving elements and fails with "no elements match condition" exactly
when that union is empty (so a successful Condition lookup never returns
an empty list), while a Wildcard selector returns the (possibly empty)
element-wise union, in element order, with no error. -/
theorem c1_condition_vs_wildcard (o : RegexOracle) (mid : Nat) (cs : List Node)
    (f : String) (cond : Condition) (c? : Option Condition) (rest : List Segment)
    (aid : Nat) (es : List Node)
    (hlook : lookupArrayNode f cs = some (.sequence aid es)) :
    (findRecursive o (.mapping mid cs) (segArray f (selCondS cond) :: rest) =
      (if (es.flatMap (fun e =>
          if matchCondition o e cond then exceptList (findRecursive o e rest) else [])).isEmpty
       then .error "no elements match condition"
       else .ok (es.flatMap (fun e =>
          if matchCondition o e cond then exceptList (findRecursive o e rest) else []))))
    ∧ (findRecursive o (.mapping mid cs)
        (segArray f { type := .wildcard, condition := c? } :: rest) =
        .ok (es.flatMap (fun e => exceptList (findRecursive o e rest))))
    ∧ (∀ l, findRecursive o (.mapping mid cs) (segArray f (selCondS cond) :: rest) = .ok l →
        l ≠ []) := by
  have hc : findRecursive o (.mapping mid cs) (segArray f (selCondS cond) :: rest) =
      (if (es.flatMap (fun e =>
          if matchCondition o e cond then exceptList (findRecursive o e rest) else [])).isEmpty
       then .error "no elements match condition"
       else .ok (es.flatMap (fun e =>
          if matchCondition o e cond then exceptList (findRecursive o e rest) else []))) := by
    rw [findRecursive]
    dsimp only [segArray, selCondS]
    rw [findArrayLoop_eq, hlook]
    dsimp only
    rw [arrayDispatch]
    dsimp only
    rw [condLoop_eq]
  refine ⟨hc, ?_, ?_⟩
  · rw [findRecursive]
    dsimp only [segArray]
    rw [findArrayLoop_eq, hlook]
    dsimp only
    rw [arrayDispatch]
    dsimp only
    rw [wildcardLoop_eq]
  · intro l hl h0
    subst h0
    rw [hc] at hl
    cases hb : (es.flatMap fun e =>
        if matchCondition o e cond then exceptList (findRecursive o e rest) else []).isEmpty with
    | true =>
      rw [if_pos hb] at hl
      cases hl
    | false =>
      rw [if_neg (by simp [hb])] at hl
      have hX := Except.ok.inj hl
      rw [hX] at hb
      simp at hb

/-- C1, witness: the Scenario A tree; the Condition selector resolves to
exactly the `old` image scalar, and a Wildcard selector aggregates both
images. -/
theorem c1_witness :
    lookupArrayNode "containers" containersContent =
      some (.sequence 5 [containerElem 10 "nginx" "old", containerElem 20 "other" "x"])
    ∧ findRecursive oracleAll (.mapping 1 containersContent)
        (segArray "containers"
          (selCondS { field := "name", op := .opEqual, value := .strV "nginx" }) ::
          [segField "image"]) = .ok [.scalar 14 "!!str" "old"]
    ∧ findRecursive oracleAll (.mapping 1 containersContent)
        (segArray "containers" { type := .wildcard, condition := none } ::
          [segField "image"]) = .ok [.scalar 14 "!!str" "old", .scalar 24 "!!str" "x"] := by
  have h := c1_condition_vs_wildcard oracleAll 1 containersContent "containers"
    { field := "name", op := .opEqual, value := .strV "nginx" } none [segField "image"] 5
    [containerElem 10 "nginx" "old", containerElem 20 "other" "x"] rfl
  exact ⟨rfl, h.1.trans (by rfl), h.2.1.trans (by rfl)⟩

/-- C9: at an ArrayAccess segment whose field resolves to a Sequence of
length L, an Index selector n with 0 ≤ n ≤ L-1 recurses into exactly the
element at position n (and succeeds with that element when the address
ends there), while n < 0 or n ≥ L fails with "index n out of range". -/
theorem c9_index_bounds (o : RegexOracle) (mid : Nat) (cs : List Node) (f : String)
    (n : Int) (rest : List Segment) (aid : Nat) (es : List Node)
    (hlook : lookupArrayNode f cs = some (.sequence aid es)) :
    (∀ e, 0 ≤ n → es[n.toNat]? = some e →
      findRecursive o (.mapping mid cs) (segArray f (selIndexS n) :: rest) =
        findRecursive o e rest)
    ∧ (∀ e, 0 ≤ n → es[n.toNat]? = some e → rest = [] →
      findRecursive o (.mapping mid cs) (segArray f (selIndexS n) :: rest) = .ok [e])
    ∧ (n < 0 ∨ (es.length : Int) ≤ n →
      findRecursive o (.mapping mid cs) (segArray f (selIndexS n) :: rest) =
        .error s!"index {n} out of range") := by
  have hbase : findRecursive o (.mapping mid cs) (segArray f (selIndexS n) :: rest) =
      (if n < 0 then .error s!"index {n} out of range"
       else indexLoop o n rest n.toNat es) := by
    rw [findRecursive]
    dsimp only [segArray, selIndexS]
    rw [findArrayLoop_eq, hlook]
    dsimp only
    rw [arrayDispatch]
  have hin : ∀ e, 0 ≤ n → es[n.toNat]? = some e →
      findRecursive o (.mapping mid cs) (segArray f (selIndexS n) :: rest) =
        findRecursive o e rest := by
    intro e hn he
    rw [hbase, if_neg (by omega), indexLoop_in_range o n rest n.toNat es e he]
  refine ⟨hin, ?_, ?_⟩
  · intro e hn he hrest
    rw [hin e hn he, hrest, findRecursive]
  · intro hout
    rcases hout with hneg | hge
    · rw [hbase, if_pos hneg]
    · rw [hbase, if_neg (by omega), indexLoop_out_of_range o n rest n.toNat es (by omega)]

/-- C9, witness: on a two-element Sequence, index 0 resolves to the first
element, index -1 and index 2 fail with the out-of-range error. -/
theorem c9_witness :
    lookupArrayNode "containers" containersContent =
      some (.sequence 5 [containerElem 10 "nginx" "old", containerElem 20 "other" "x"])
    ∧ findRecursive oracleAll (.mapping 1 containersContent)
        [segArray "containers" (selIndexS 0)] = .ok [containerElem 10 "nginx" "old"]
    ∧ findRecursive oracleAll (.mapping 1 containersContent)
        [segArray "containers" (selIndexS (-1))] = .error "index -1 out of range"
    ∧ findRecursive oracleAll (.mapping 1 containersContent)
        [segArray "containers" (selIndexS 2)] = .error "index 2 out of range" := by
  have h0 := c9_index_bounds oracleAll 1 containersContent "containers" 0 [] 5
    [containerElem 10 "nginx" "old", containerElem 20 "other" "x"] rfl
  have hm := c9_index_bounds oracleAll 1 containersContent "containers" (-1) [] 5
    [containerElem 10 "nginx" "old", containerElem 20 "other" "x"] rfl
  have h2 := c9_index_bounds oracleAll 1 containersContent "containers" 2 [] 5
    [containerElem 10 "nginx" "old", containerElem 20 "other" "x"] rfl
  refine ⟨rfl, ?_, ?_, ?_⟩
  · exact h0.2.1 (containerElem 10 "nginx" "old") (by decide) rfl rfl
  · exact hm.2.2 (Or.inl (by decide))
  · exact h2.2.2 (Or.inr (by decide))

/-- C7: replace with at least one resolved node overwrites exactly the
resolved nodes in place: the engine rewrites the tree by substituting the
encoded payload at every resolved identity while keeping that identity
(so the node keeps its position under its parent — children lists are
mapped elementwise, preserving length and positions), and any subtree
containing no resolved identity is left completely unchanged. -/
theorem c7_replace_in_place (o : RegexOracle) (root : Node) (rule : Rule) (p : Path)
    (ns : List Node)
    (ha : rule.action = .replace)
    (hp : Parse o rule.path = .ok p)
    (hf : findRecursive o root p.segments = .ok ns)
    (hne : ns ≠ []) :
    Apply o root rule = .ok (replaceTargets (ns.map Node.id) (encodeValue rule.value) root)
    ∧ (∀ s : Node, (∀ i ∈ nodeIds s, (ns.map Node.id).contains i = false) →
        replaceTargets (ns.map Node.id) (encodeValue rule.value) s = s)
    ∧ (∀ (tgt : List Nat) (new : Node) (i : Nat) (cs : List Node),
        replaceTargets tgt new (Node.sequence i cs) =
          if tgt.contains i then withId i new
          else Node.sequence i (cs.map (replaceTargets tgt new)))
    ∧ (∀ (tgt : List Nat) (new : Node) (i : Nat) (cs : List Node),
        replaceTargets tgt new (Node.mapping i cs) =
          if tgt.contains i then withId i new
          else Node.mapping i (cs.map (replaceTargets tgt new)))
    ∧ (∀ (tgt : List Nat) (new n : Node), tgt.contains n.id = true →
        replaceTargets tgt new n = withId n.id new) := by
  refine ⟨?_, replaceTargets_frame _ _, ?_, ?_, ?_⟩
  · rw [Apply, ha]
    dsimp only
    rw [replaceAction, hp]
    dsimp only
    rw [hf]
    cases ns with
    | nil => exact absurd rfl hne
    | cons a as => rfl
  · intro tgt new i cs
    rw [replaceTargets.eq_def]
    dsimp only [Node.id]
    rw [replaceTargetsList_eq_map]
  · intro tgt new i cs
    rw [replaceTargets.eq_def]
    dsimp only [Node.id]
    rw [replaceTargetsList_eq_map]
  · intro tgt new n h
    rw [replaceTargets.eq_def, if_pos (by simpa using h)]

/-- C7, witness: replacing `image` in a small tree rewrites exactly the
resolved scalar, in place, with the encoded payload. -/
theorem c7_witness :
    Parse oracleAll imageReplaceRule.path = .ok { segments := [segField "image"] }
    ∧ findRecursive oracleAll imageRoot [segField "image"] = .ok [.scalar 3 "!!str" "old"]
    ∧ Apply oracleAll imageRoot imageReplaceRule =
        .ok (.mapping 1 [.scalar 2 "!!str" "image", .scalar 3 "!!str" "new"]) := by
  have h := c7_replace_in_place oracleAll imageRoot imageReplaceRule
    { segments := [segField "image"] } [.scalar 3 "!!str" "old"] rfl rfl rfl (by simp)
  exact ⟨rfl, rfl, h.1.trans (by rfl)⟩

/-- C2: a delete rule whose address (after the optional where-clause
filter) resolves to zero candidates succeeds and returns the tree
untouched, while replace, set and regex_replace all fail with "no nodes
found" when their path resolves to zero nodes. -/
theorem c2_delete_zero_silent (o : RegexOracle) (root : Node) (rule : Rule) (p : Path)
    (hd : rule.action = .delete)
    (hp : Parse o rule.path = .ok p)
    (hw : FindWithWhere o root p rule.whereC = .ok []) :
    Apply o root rule = .ok root
    ∧ (∀ (rule2 : Rule) (p2 : Path), rule2.action = .replace →
        Parse o rule2.path = .ok p2 → findRecursive o root p2.segments = .ok [] →
        Apply o root rule2 = .error "no nodes found")
    ∧ (∀ (rule2 : Rule) (p2 : Path), rule2.action = .set →
        Parse o rule2.path = .ok p2 → findRecursive o root p2.segments = .ok [] →
        Apply o root rule2 = .error "no nodes found")
    ∧ (∀ (rule2 : Rule) (p2 : Path), rule2.action = .regexReplace →
        Parse o rule2.path = .ok p2 → findRecursive o root p2.segments = .ok [] →
        Apply o root rule2 = .error "no nodes found") := by
  refine ⟨?_, ?_, ?_, ?_⟩
  · rw [Apply, hd]
    dsimp only
    rw [deleteAction, hp]
    dsimp only
    rw [hw]
  · intro rule2 p2 ha hp2 hf2
    rw [Apply, ha]
    dsimp only
    rw [replaceAction, hp2]
    dsimp only
    rw [hf2]
  · intro rule2 p2 ha hp2 hf2
    rw [Apply, ha]
    dsimp only
    rw [setAction, hp2]
    dsimp only
    rw [hf2]
  · intro rule2 p2 ha hp2 hf2
    rw [Apply, ha]
    dsimp only
    rw [regexReplaceAction, hp2]
    dsimp only
    rw [hf2]

/-- C2, witness: on a tree whose `env` member is an empty Sequence, the
address `env[*]` resolves to zero nodes; delete succeeds leaving the tree
unchanged while replace, set and regex_replace error. -/
theorem c2_witness :
    Parse oracleAll "env[*]" = .ok { segments := [segArray "env" selWildcardS] }
    ∧ FindWithWhere oracleAll emptySeqRoot { segments := [segArray "env" selWildcardS] } none =
        .ok []
    ∧ Apply oracleAll emptySeqRoot deleteRuleEmpty = .ok emptySeqRoot
    ∧ Apply oracleAll emptySeqRoot replaceRuleEmpty = .error "no nodes found"
    ∧ Apply oracleAll emptySeqRoot setRuleEmpty = .error "no nodes found"
    ∧ Apply oracleAll emptySeqRoot regexRuleEmpty = .error "no nodes found" := by
  have h := c2_delete_zero_silent oracleAll emptySeqRoot deleteRuleEmpty
    { segments := [segArray "env" selWildcardS] } rfl rfl rfl
  exact ⟨rfl, rfl, h.1,
    h.2.1 replaceRuleEmpty { segments := [segArray "env" selWildcardS] } rfl rfl rfl,
    h.2.2.1 setRuleEmpty { segments := [segArray "env" selWildcardS] } rfl rfl rfl,
    h.2.2.2 regexRuleEmpty { segments := [segArray "env" selWildcardS] } rfl rfl rfl⟩

/-- C8: Scenario B — deleting `items[*]` with where.name_not_in =
[foo1, foo2] on a four-element Sequence removes exactly foo3 and foo4,
preserving the order of the survivors; and in general matchWhere keeps
only candidates that are Mappings whose (first) "name" member is nonempty
and satisfies every present check — regex, exclusion set and inclusion
set — conjunctively. -/
theorem c8_scenario_b :
    deleteAction oracleAll scenarioBRoot scenarioBRule = .ok scenarioBExpected
    ∧ (∀ (o : RegexOracle) (n : Node) (w : WhereCondition), matchWhere o n w = true →
        ∃ (i : Nat) (cs : List Node), n = .mapping i cs
          ∧ findNameValue cs ≠ ""
          ∧ (w.nameRegex ≠ "" → o.matchString w.nameRegex (findNameValue cs) = some true)
          ∧ findNameValue cs ∉ w.nameNotIn
          ∧ (w.nameIn ≠ [] → findNameValue cs ∈ w.nameIn)) := by
  refine ⟨rfl, ?_⟩
  intro o n w hmw
  cases n with
  | document i cs => simp [matchWhere] at hmw
  | sequence i cs => simp [matchWhere] at hmw
  | scalar i t v => simp [matchWhere] at hmw
  | aliasN i t => simp [matchWhere] at hmw
  | mapping i cs =>
    rw [matchWhere] at hmw
    split_ifs at hmw with h1 h2 h3 h4
    refine ⟨i, cs, rfl, h1, ?_, ?_, ?_⟩
    · intro hr
      rw [Bool.and_eq_true] at h2
      cases hms : o.matchString w.nameRegex (findNameValue cs) with
      | none => exact absurd ⟨by simp [bne_iff_ne, hr], by simp [hms]⟩ h2
      | some m =>
        cases m with
        | true => rfl
        | false => exact absurd ⟨by simp [bne_iff_ne, hr], by simp [hms]⟩ h2
    · intro hin
      rw [Bool.and_eq_true] at h3
      exact h3 ⟨by simp [List.isEmpty_iff, List.ne_nil_of_mem hin], by simp [hin]⟩
    · intro hne
      by_contra hnotmem
      rw [Bool.and_eq_true] at h4
      exact h4 ⟨by simp [List.isEmpty_iff, hne], by simp [hnotmem]⟩

/-- C8, witness: the element named foo3 passes the where-filter of
Scenario B, and the general matchWhere soundness instantiated there shows
its name is outside the exclusion set. -/
theorem c8_witness :
    matchWhere oracleAll (namedElem 30 "foo3")
      { nameRegex := "", nameNotIn := ["foo1", "foo2"], nameIn := [] } = true
    ∧ ("foo3" : String) ∉ (["foo1", "foo2"] : List String) := by
  refine ⟨rfl, ?_⟩
  obtain ⟨i, cs, heq, -, -, hnot, -⟩ := c8_scenario_b.2 oracleAll (namedElem 30 "foo3")
    { nameRegex := "", nameNotIn := ["foo1", "foo2"], nameIn := [] } rfl
  have hcs : cs = [.scalar 31 "!!str" "name", .scalar 32 "!!str" "foo3"] := by
    have heq' : Node.mapping 30 [.scalar 31 "!!str" "name", .scalar 32 "!!str" "foo3"] =
        .mapping i cs := heq
    injection heq' with hi hcs0
    exact hcs0.symm
  rw [hcs] at hnot
  exact hnot

/-- C4, witness: a rejected pattern `x` is a parse error, an accepted one
compiles to a RegexMatch condition, and with an always-erroring match
engine the matcher returns false rather than failing. -/
theorem c4_witness :
    oracleNone.compile2OK (String.mk ['x']) = false
    ∧ parseSelector oracleNone (String.mk (['n'] ++ '=' :: '@' :: (['x'] ++ ['@']))) =
        .error "invalid regex pattern"
    ∧ matchCondition oracleNone (namedElem 10 "foo1")
        { field := "name", op := .opRegex, value := .strV "x" } = false := by
  refine ⟨rfl, ?_, ?_⟩
  · exact (c4_regex_validation oracleNone).1 ['n'] ['x'] (by decide) (by decide)
      (by decide) (by decide) (by decide) rfl
  · exact (c4_regex_validation oracleNone).2.2 (namedElem 10 "foo1")
      { field := "name", op := .opRegex, value := .strV "x" } rfl (fun _ _ => rfl)

end YE
